import Mathlib

/-!
Verification development for the `LTICircuit` class in `bag/data/lti.py`.

The circuit state, node registry, stamp accumulators and the two
transfer-function queries are embedded shallowly:

* Python `float` arithmetic is modelled by exact rationals (`ℚ`).
* A Python `dict` is modelled by an association list in insertion order;
  `d[k] += v` on a plain dict raises `KeyError` when `k` is absent, which is
  modelled by `dictIncr` returning `none`.
* Python exceptions are modelled by the `PyErr` enumeration.  Statements that
  can raise return the partially mutated state together with an optional error
  (for mutators) or an `Except` value (for queries).
* The scipy/numpy library calls are modelled by their exact-arithmetic
  mathematical contract: `scipy.sparse.csc_matrix` sums duplicate
  coordinate entries and rejects out-of-range or negative indices
  (`dictToMat`); `scipy.sparse.linalg.factorized` raises on a singular matrix
  and otherwise solves exactly (`solveMat`); `scipy.signal.ss2tf` computes
  `den = poly(A)` and `num = poly(A - B·C) + (D - 1)·den` for a SISO system,
  with `poly` being the characteristic polynomial (here computed exactly by
  the Faddeev-LeVerrier recurrence in `charpolyFL`).
* numpy's wrapping of negative indices is not modelled: an access with a
  negative (ground, `-1`) index is mapped to `PyErr.indexError`, and a
  non-square factorization target to `PyErr.shapeError`.  The claims under
  verification only quantify over non-ground in-range indices, except for
  iff-statements about a specific error, which remain unaffected because the
  specific error is raised (in the source and in the model) at exactly one
  program point in each query.
-/

/-- Python exception kinds raised by the embedded code.  `sameNode`,
`shortedPort` and `singular` are the three `ValueError`s of the source
(the spec names them `SameNodeError`, `ShortedPortError` and
`SingularMatrixError`); `keyError` is a `dict` lookup miss; `cscError` is
scipy's rejection of an out-of-range/negative coordinate in
`csc_matrix`; `indexError` is an out-of-bounds numpy/array access
(including the numerator-trimming loop exhausting the numerator); and
`shapeError` stands for feeding a non-square matrix to `factorized`. -/
inductive PyErr where
  | keyError
  | sameNode
  | shortedPort
  | singular
  | cscError
  | indexError
  | shapeError
  deriving DecidableEq

instance exceptDecEq {e a : Type} [DecidableEq e] [DecidableEq a] : DecidableEq (Except e a) :=
  fun x y =>
    match x, y with
    | .error u, .error v =>
        if h : u = v then .isTrue (by rw [h]) else .isFalse (fun hc => h (by injection hc))
    | .error _, .ok _ => .isFalse (fun hc => by injection hc)
    | .ok _, .error _ => .isFalse (fun hc => by injection hc)
    | .ok u, .ok v =>
        if h : u = v then .isTrue (by rw [h]) else .isFalse (fun hc => h (by injection hc))

/-- State of an `LTICircuit` object: the node counter `self._n`, the two
stamp accumulators `self._gmat_data` / `self._cmat_data` (dicts keyed by
`(row, col)` pairs of `int`), and the node registry `self._node_id`
(a dict from net name to index, kept in insertion order). -/
structure LTI where
  n : ℕ
  gmat_data : List ((Int × Int) × ℚ)
  cmat_data : List ((Int × Int) × ℚ)
  node_id : List (String × Int)
  deriving DecidableEq

/-- `LTICircuit.__init__`: zero nodes, empty accumulators, and the three
reserved ground aliases pre-registered with sentinel index `-1`. -/
def initCircuit : LTI :=
  ⟨0, [], [], [("gnd", -1), ("vss", -1), ("vdd", -1)]⟩

/-- First-match lookup in an association list, modelling a Python `dict`
read `d[name]` (which raises `KeyError`, i.e. `none`, when absent). -/
def lookupName : List (String × Int) → String → Option Int
  | [], _ => none
  | kv :: rest, name => if kv.1 = name then some kv.2 else lookupName rest name

/-- `LTICircuit._get_node_id`: return the existing index for `name`, or
assign the next sequential index `self._n`, record it, and bump the
counter. -/
def getNodeId (st : LTI) (name : String) : Int × LTI :=
  match lookupName st.node_id name with
  | some i => (i, st)
  | none =>
      ((st.n : Int),
        { st with node_id := st.node_id ++ [(name, (st.n : Int))], n := st.n + 1 })

/-- Python `d[key] += v` on a plain dict: `none` (a `KeyError`) when `key`
is absent, otherwise the updated dict.  The source initializes
`_gmat_data`/`_cmat_data` as `{}` with no default factory, so the absent
case is reachable. -/
def dictIncr (d : List ((Int × Int) × ℚ)) (key : Int × Int) (v : ℚ) :
    Option (List ((Int × Int) × ℚ)) :=
  if d.any (fun kv => decide (kv.1 = key)) then
    some (d.map (fun kv => if kv.1 = key then (kv.1, kv.2 + v) else kv))
  else none

/-- Run a sequence of `+=` updates; on the first `KeyError` the dict keeps
the updates already applied (Python statements before the raising one have
taken effect) and the error is reported. -/
def dictIncrSeq (d : List ((Int × Int) × ℚ)) :
    List ((Int × Int) × ℚ) → List ((Int × Int) × ℚ) × Option PyErr
  | [] => (d, none)
  | u :: rest =>
      match dictIncr d u.1 u.2 with
      | none => (d, some PyErr.keyError)
      | some d' => dictIncrSeq d' rest

/-- `LTICircuit.add_res`: resolve both terminals, drop self-loops, reorder
so the larger index is first, then stamp `g = 1/res` with the symmetric
`[[+g, -g], [-g, +g]]` pattern, skipping ground (negative) rows/columns. -/
def addRes (st : LTI) (res : ℚ) (p_name n_name : String) : LTI × Option PyErr :=
  let r1 := getNodeId st p_name
  let r2 := getNodeId r1.2 n_name
  let node_p := r1.1
  let node_n := r2.1
  let st2 := r2.2
  if node_p = node_n then (st2, none)
  else
    let hi := if node_p < node_n then node_n else node_p
    let lo := if node_p < node_n then node_p else node_n
    let g := 1 / res
    let upds := ((hi, hi), g) ::
      (if 0 ≤ lo then [((hi, lo), -g), ((lo, lo), g), ((lo, hi), -g)] else [])
    let out := dictIncrSeq st2.gmat_data upds
    ({ st2 with gmat_data := out.1 }, out.2)

/-- `LTICircuit.add_cap`: identical stamping pattern applied to the
capacitance accumulator, with the raw capacitance value. -/
def addCap (st : LTI) (cap : ℚ) (p_name n_name : String) : LTI × Option PyErr :=
  let r1 := getNodeId st p_name
  let r2 := getNodeId r1.2 n_name
  let node_p := r1.1
  let node_n := r2.1
  let st2 := r2.2
  if node_p = node_n then (st2, none)
  else
    let hi := if node_p < node_n then node_n else node_p
    let lo := if node_p < node_n then node_p else node_n
    let upds := ((hi, hi), cap) ::
      (if 0 ≤ lo then [((hi, lo), -cap), ((lo, lo), cap), ((lo, hi), -cap)] else [])
    let out := dictIncrSeq st2.cmat_data upds
    ({ st2 with cmat_data := out.1 }, out.2)

/-- `LTICircuit.add_gm`: resolve the four terminals, drop the element if the
current pair or the control pair is a self-loop, then apply the
non-reciprocal VCCS stamp guarded by the non-ground checks of the source. -/
def addGm (st : LTI) (gm : ℚ) (p_name n_name cp_name cn_name : String) :
    LTI × Option PyErr :=
  let r1 := getNodeId st p_name
  let r2 := getNodeId r1.2 n_name
  let r3 := getNodeId r2.2 cp_name
  let r4 := getNodeId r3.2 cn_name
  let node_p := r1.1
  let node_n := r2.1
  let node_cp := r3.1
  let node_cn := r4.1
  let st4 := r4.2
  if node_p = node_n ∨ node_cp = node_cn then (st4, none)
  else
    let upds :=
      (if 0 ≤ node_cp then
        (if 0 ≤ node_p then [((node_p, node_cp), gm)] else []) ++
        (if 0 ≤ node_n then [((node_n, node_cp), -gm)] else [])
      else []) ++
      (if 0 ≤ node_cn then
        (if 0 ≤ node_p then [((node_p, node_cn), -gm)] else []) ++
        (if 0 ≤ node_n then [((node_n, node_cn), gm)] else [])
      else [])
    let out := dictIncrSeq st4.gmat_data upds
    ({ st4 with gmat_data := out.1 }, out.2)

/-- The numerator-trimming loop shared by both queries:
`while abs(num[0]) <= atol: num = num[1:]`.  Reading `num[0]` of an empty
array raises `IndexError`, modelled by `none`. -/
def trimLeading (atol : ℚ) : List ℚ → Option (List ℚ)
  | [] => none
  | x :: xs => if |x| ≤ atol then trimLeading atol xs else some (x :: xs)

attribute [local semireducible] Rat.add Rat.mul Rat.inv Rat.sub

/-- Determinant by cofactor expansion along the first row, written with
`Nat.rec` so that it evaluates on concrete rational matrices.  Proved equal
to `Matrix.det` below. -/
def detQAux : (m : ℕ) → Matrix (Fin m) (Fin m) ℚ → ℚ :=
  Nat.rec (fun _ => 1)
    (fun m ih A =>
      ∑ j : Fin (m + 1), (-1) ^ (j : ℕ) * A 0 j * ih (A.submatrix Fin.succ j.succAbove))

/-- Executable determinant of a square rational matrix. -/
def detQ {m : ℕ} (A : Matrix (Fin m) (Fin m) ℚ) : ℚ := detQAux m A

/-- Executable adjugate (gives Cramer-rule solves), proved equal to
`Matrix.adjugate` below. -/
def adjQ {m : ℕ} (A : Matrix (Fin m) (Fin m) ℚ) : Matrix (Fin m) (Fin m) ℚ :=
  Matrix.of fun i j => detQ (A.updateRow j (Pi.single i 1))

/-- Exact-arithmetic contract of the solver object returned by
`scipy.sparse.linalg.factorized(M)`: solve `M·X = rhs` for each column of
`rhs` (the source always calls it on a nonsingular factorization, where
this equals `M⁻¹ * rhs`). -/
def solveMat {k c : ℕ} (M : Matrix (Fin k) (Fin k) ℚ) (rhs : Matrix (Fin k) (Fin c) ℚ) :
    Matrix (Fin k) (Fin c) ℚ :=
  (detQ M)⁻¹ • (adjQ M * rhs)

/-- A single-input single-output continuous-time state-space system
`dx/dt = A x + B u`, `y = C x + D u`, as assembled by the queries before
calling `scipy.signal.ss2tf`. -/
structure SS (m : ℕ) where
  A : Matrix (Fin m) (Fin m) ℚ
  B : Matrix (Fin m) (Fin 1) ℚ
  C : Matrix (Fin 1) (Fin m) ℚ
  D : Matrix (Fin 1) (Fin 1) ℚ

instance ssDecEq {m : ℕ} : DecidableEq (SS m) :=
  fun s t =>
    if h : s.A = t.A ∧ s.B = t.B ∧ s.C = t.C ∧ s.D = t.D then
      .isTrue (by
        cases s
        cases t
        dsimp only at h
        rw [h.1, h.2.1, h.2.2.1, h.2.2.2])
    else .isFalse (fun hc => h (by subst hc; exact ⟨rfl, rfl, rfl, rfl⟩))

/-- Characteristic polynomial coefficients (descending powers, length
`m + 1`, leading coefficient 1) via the Faddeev-LeVerrier recurrence; this
is the exact-arithmetic content of `numpy.poly(A)` as used by
`scipy.signal.ss2tf`. -/
def charpolyFL {m : ℕ} (A : Matrix (Fin m) (Fin m) ℚ) : List ℚ :=
  ((List.range' 1 m).foldl
    (fun acc k =>
      let M' := A * acc.1 + acc.2.1 • (1 : Matrix (Fin m) (Fin m) ℚ)
      let c' := -(A * M').trace / (k : ℚ)
      (M', c', acc.2.2 ++ [c']))
    ((0 : Matrix (Fin m) (Fin m) ℚ), (1 : ℚ), [(1 : ℚ)])).2.2

/-- `scipy.signal.ss2tf` for a SISO system: `den = poly(A)` and
`num = poly(A - B·C) + (D - 1)·den`, each a coefficient list in descending
powers of `s` of length `m + 1`. -/
def ss2tf {m : ℕ} (ss : SS m) : List ℚ × List ℚ :=
  let den := charpolyFL ss.A
  (List.zipWith (fun a b => a + (ss.D 0 0 - 1) * b) (charpolyFL (ss.A - ss.B * ss.C)) den,
   den)

/-- `LTICircuit.dict_to_csc_mat` composed with the `scipy.sparse.csc_matrix`
contract: drop entries whose row is `ig_row` or whose column is `ig_col`
(the source passes `-1` for "keep everything", which never matches a
stamped key), fail with scipy's `ValueError` if a surviving coordinate is
negative or out of range for `shape = (r, c)` — the source never re-indexes
surviving entries — and otherwise build the matrix, summing duplicates. -/
def dictToMat (table : List ((Int × Int) × ℚ)) (r c : ℕ) (ig_row ig_col : Int) :
    Except PyErr (Matrix (Fin r) (Fin c) ℚ) :=
  let entries := table.filter fun kv => decide (kv.1.1 ≠ ig_row) && decide (kv.1.2 ≠ ig_col)
  if entries.all fun kv =>
      decide (0 ≤ kv.1.1) && decide (kv.1.1 < (r : Int)) &&
      decide (0 ≤ kv.1.2) && decide (kv.1.2 < (c : Int)) then
    .ok (Matrix.of fun i j =>
      ((entries.filter fun kv =>
          decide (kv.1.1 = (i.val : Int)) && decide (kv.1.2 = (j.val : Int))).map
        (fun kv => kv.2)).sum)
  else .error .cscError

/-- The column re-embedding `col_core = [idx for idx in range(n) if idx != a]`
of the voltage-gain query: the `i`-th kept column is `i` when `i < a` and
`i + 1` otherwise. -/
def colSkip (n a : ℕ) (h : a < n) : Fin (n - 1) → Fin n := fun i =>
  if hi : i.val < a then ⟨i.val, by omega⟩
  else ⟨i.val + 1, by have := i.isLt; omega⟩

/-- Column slice `M[:, j:j+1]` of a matrix. -/
def colOf {r c : ℕ} (M : Matrix (Fin r) (Fin c) ℚ) (j : Fin c) : Matrix (Fin r) (Fin 1) ℚ :=
  Matrix.of fun i _ => M i j

/-- `M[:, col_core]`: all columns of `M` except column `a`. -/
def coreOf {n : ℕ} (M : Matrix (Fin (n - 1)) (Fin n) ℚ) (a : ℕ) (h : a < n) :
    Matrix (Fin (n - 1)) (Fin (n - 1)) ℚ :=
  M.submatrix id (colSkip n a h)

/-- Unit row vector (`cmat = zeros((1, m)); cmat[0, j] = 1`). -/
def rowUnit {m : ℕ} (j : Fin m) : Matrix (Fin 1) (Fin m) ℚ :=
  Matrix.of fun _ c => if c = j then 1 else 0

/-- State-space assembly of `get_voltage_gain_system` (source lines 230-259),
starting after the two matrices have been materialized: split off the input
column, factorize the core capacitance matrix (raising the singular-matrix
error if `det = 0`), remap the output index past the removed input column,
eliminate the input-derivative term through `weight = solve(c_in)`, and
return `(A, B, C, D)`.  A ground (negative) or out-of-range input index
would make the sliced matrix non-square (`shapeError`); an out-of-range
remapped output index is an `indexError` on `weight_vec[node_out, 0]`. -/
def vgsBuild (n : ℕ) (gmat cmat : Matrix (Fin (n - 1)) (Fin n) ℚ) (node_in node_out : Int) :
    Except PyErr (SS (n - 1)) :=
  if hin : 0 ≤ node_in ∧ node_in.toNat < n then
    if detQ (coreOf cmat node_in.toNat hin.2) = 0 then .error .singular
    else
      let no' : Int := if node_in < node_out then node_out - 1 else node_out
      if hout : 0 ≤ no' ∧ no'.toNat < n - 1 then
        let cc := coreOf cmat node_in.toNat hin.2
        let gc := coreOf gmat node_in.toNat hin.2
        let cvec := colOf cmat ⟨node_in.toNat, hin.2⟩
        let gvec := colOf gmat ⟨node_in.toNat, hin.2⟩
        let o : Fin (n - 1) := ⟨no'.toNat, hout.2⟩
        let weight := solveMat cc cvec
        .ok ⟨solveMat cc (-gc),
             solveMat cc (-(gvec - gc * weight)),
             rowUnit o,
             Matrix.of fun _ _ => -(weight o 0)⟩
      else .error .indexError
  else .error .shapeError

/-- `get_voltage_gain_system` up to the state-space model: the two registry
reads (plain dict accesses raising `KeyError` on unknown names), the
same-node check, the two materializations with the input row ignored, and
`vgsBuild`. -/
def voltage_gain_ss (st : LTI) (in_name out_name : String) : Except PyErr (SS (st.n - 1)) :=
  match lookupName st.node_id in_name, lookupName st.node_id out_name with
  | some node_in, some node_out =>
      if node_in = node_out then .error .sameNode
      else
        match dictToMat st.gmat_data (st.n - 1) st.n node_in (-1),
              dictToMat st.cmat_data (st.n - 1) st.n node_in (-1) with
        | .ok gmat, .ok cmat => vgsBuild st.n gmat cmat node_in node_out
        | .error e, _ => .error e
        | .ok _, .error e => .error e
  | none, _ => .error .keyError
  | some _, none => .error .keyError

/-- Unit column vector at index `i` (all zeros except a `1` in row `i`). -/
def colUnit {m : ℕ} (i : Fin m) : Matrix (Fin m) (Fin 1) ℚ :=
  Matrix.of fun r _ => if r = i then 1 else 0

/-- Conversion of an assembled state-space model to a transfer function:
`ss2tf` followed by the numerator-trimming loop (whose `IndexError` on an
all-negligible numerator propagates). -/
def tfFinish {m : ℕ} (r : Except PyErr (SS m)) (atol : ℚ) : Except PyErr (List ℚ × List ℚ) :=
  match r with
  | .error e => .error e
  | .ok ss =>
      match trimLeading atol (ss2tf ss).1 with
      | none => .error .indexError
      | some num => .ok (num, (ss2tf ss).2)

/-- `LTICircuit.get_voltage_gain_system`: the full query. -/
def getVoltageGainSystem (st : LTI) (in_name out_name : String) (atol : ℚ) :
    Except PyErr (List ℚ × List ℚ) :=
  tfFinish (voltage_gain_ss st in_name out_name) atol

/-- State-space assembly of `get_impedance_gain_system` (source lines
312-325), shared by the shorted and non-shorted branches: factorize the
capacitance matrix (singular-matrix error if `det = 0`), build the stored
right-hand side `bmat` with `-1` at the input index, and return
`A = solve(-G)`, `B = solve(-bmat)`, the unit output row, and `D = 0`.
No row/column of the excitation is deleted here. -/
def impedance_core {m : ℕ} (gmat cmat : Matrix (Fin m) (Fin m) ℚ) (node_in node_out : Int) :
    Except PyErr (SS m) :=
  if detQ cmat = 0 then .error .singular
  else if hin : 0 ≤ node_in ∧ node_in.toNat < m then
    if hout : 0 ≤ node_out ∧ node_out.toNat < m then
      let i : Fin m := ⟨node_in.toNat, hin.2⟩
      let o : Fin m := ⟨node_out.toNat, hout.2⟩
      let bvec : Matrix (Fin m) (Fin 1) ℚ := Matrix.of fun row _ => if row = i then -1 else 0
      .ok ⟨solveMat cmat (-gmat), solveMat cmat (-bvec), rowUnit o, Matrix.of fun _ _ => 0⟩
    else .error .indexError
  else .error .indexError

/-- `LTICircuit.get_impedance_gain_system`: registry reads for input and
output, then either the full `n×n` materialization (empty `short_name`) or
the shorted-port check followed by the `(n-1)×(n-1)` materialization with
the short node's row and column ignored and the input/output indices
decremented past the short index; finally the shared state-space assembly
and transfer-function conversion. -/
def getImpedanceGainSystem (st : LTI) (in_name out_name short_name : String) (atol : ℚ) :
    Except PyErr (List ℚ × List ℚ) :=
  match lookupName st.node_id in_name, lookupName st.node_id out_name with
  | some node_in, some node_out =>
      if short_name = "" then
        match dictToMat st.gmat_data st.n st.n (-1) (-1),
              dictToMat st.cmat_data st.n st.n (-1) (-1) with
        | .ok gmat, .ok cmat => tfFinish (impedance_core gmat cmat node_in node_out) atol
        | .error e, _ => .error e
        | .ok _, .error e => .error e
      else
        match lookupName st.node_id short_name with
        | none => .error .keyError
        | some node_short =>
            if node_in = node_short ∨ node_out = node_short then .error .shortedPort
            else
              match dictToMat st.gmat_data (st.n - 1) (st.n - 1) node_short node_short,
                    dictToMat st.cmat_data (st.n - 1) (st.n - 1) node_short node_short with
              | .ok gmat, .ok cmat =>
                  tfFinish (impedance_core gmat cmat
                    (if node_short < node_in then node_in - 1 else node_in)
                    (if node_short < node_out then node_out - 1 else node_out)) atol
              | .error e, _ => .error e
              | .ok _, .error e => .error e
  | none, _ => .error .keyError
  | some _, none => .error .keyError

/-- Invariant of the node registry: the three reserved ground aliases head
the dict with sentinel `-1`, followed by the non-ground names with values
exactly `0, 1, ..., n - 1` in first-use order, pairwise distinct and
disjoint from the reserved names. -/
def RegistryOK (n : ℕ) (ids : List (String × Int)) : Prop :=
  ∃ tail : List (String × Int),
    ids = [("gnd", -1), ("vss", -1), ("vdd", -1)] ++ tail ∧
    tail.map Prod.snd = (List.range n).map Int.ofNat ∧
    (tail.map Prod.fst).Nodup ∧
    ∀ kv ∈ tail, kv.1 ≠ "gnd" ∧ kv.1 ≠ "vss" ∧ kv.1 ≠ "vdd"

/-- Circuit states reachable from the constructor by the element-adding
operations (`add_transistor` is literally a sequence of `add_gm`,
`add_res` and `add_cap` calls, so its reachable states are included; the
queries do not mutate the state). -/
inductive Reachable : LTI → Prop
  | base : Reachable initCircuit
  | res {st : LTI} {r : ℚ} {p n : String} : Reachable st → Reachable (addRes st r p n).1
  | cap {st : LTI} {c : ℚ} {p n : String} : Reachable st → Reachable (addCap st c p n).1
  | gm {st : LTI} {g : ℚ} {p n cp cn : String} :
      Reachable st → Reachable (addGm st g p n cp cn).1

/-- Single-pole RC low-pass circuit state: a 1Ω resistor between nodes
`"out"` (index 0) and `"in"` (index 1) and a 1F capacitor from `"out"` to
ground, with the accumulators holding the corresponding stamps. -/
def rcCircuit : LTI :=
  ⟨2, [((0, 0), 1), ((0, 1), -1), ((1, 1), 1), ((1, 0), -1)],
      [((0, 0), 1)],
      [("gnd", -1), ("vss", -1), ("vdd", -1), ("out", 0), ("in", 1)]⟩

/-- The state-space model the voltage-gain query assembles on `rcCircuit`. -/
def rcVoltageSS : SS 1 := ⟨!![-1], !![1], !![1], !![0]⟩

/-- Materialized conductance matrix of `rcCircuit` with the input row
(index 1) ignored. -/
def rcGmat : Matrix (Fin 1) (Fin 2) ℚ := !![1, -1]

/-- Materialized capacitance matrix of `rcCircuit` with the input row
(index 1) ignored. -/
def rcCmat : Matrix (Fin 1) (Fin 2) ℚ := !![1, 0]

/-- Circuit whose conductance accumulator is empty but whose node 0 has a
capacitor to ground: the voltage gain from `"in"` to `"out"` has an
identically zero numerator, driving the trimming loop off the end. -/
def degCircuit : LTI :=
  ⟨2, [], [((0, 0), 1)], [("gnd", -1), ("vss", -1), ("vdd", -1), ("out", 0), ("in", 1)]⟩

/-- Circuit with two non-ground nodes and no capacitors at all: the reduced
capacitance matrix is the zero matrix, hence singular. -/
def singCircuit : LTI :=
  ⟨2, [], [], [("gnd", -1), ("vss", -1), ("vdd", -1), ("out", 0), ("in", 1)]⟩

/-- Three-node circuit used for the shorted-port witness: caps from every
node to ground and a 1Ω resistor from `"a"` to ground. -/
def z3Circuit : LTI :=
  ⟨3, [((0, 0), 1)], [((0, 0), 1), ((1, 1), 1), ((2, 2), 1)],
   [("gnd", -1), ("vss", -1), ("vdd", -1), ("a", 0), ("b", 1), ("c", 2)]⟩

/-- The state-space model `impedance_core` assembles from `gmat = [[2]]`,
`cmat = [[1]]`, input and output index 0. -/
def impSS : SS 1 := ⟨!![-2], !![1], !![1], !![0]⟩

theorem detQ_succ {m : ℕ} (A : Matrix (Fin (m + 1)) (Fin (m + 1)) ℚ) :
    detQ A = ∑ j : Fin (m + 1), (-1) ^ (j : ℕ) * A 0 j * detQ (A.submatrix Fin.succ j.succAbove) :=
  rfl

theorem detQ_eq_det : ∀ {m : ℕ} (A : Matrix (Fin m) (Fin m) ℚ), detQ A = A.det
  | 0, A => by rw [Matrix.det_fin_zero]; rfl
  | m + 1, A => by
    rw [detQ_succ, Matrix.det_succ_row_zero]
    exact Finset.sum_congr rfl fun j _ => by rw [detQ_eq_det]

theorem adjQ_eq_adjugate {m : ℕ} (A : Matrix (Fin m) (Fin m) ℚ) : adjQ A = A.adjugate := by
  ext i j
  rw [adjQ, Matrix.adjugate_apply, Matrix.of_apply, detQ_eq_det]

theorem solveMat_eq_inv_mul {k c : ℕ} (M : Matrix (Fin k) (Fin k) ℚ)
    (rhs : Matrix (Fin k) (Fin c) ℚ) : solveMat M rhs = M⁻¹ * rhs := by
  rw [solveMat, detQ_eq_det, adjQ_eq_adjugate, Matrix.inv_def, Ring.inverse_eq_inv,
    Matrix.smul_mul]

/-- C1: the source stores the stamp accumulators as plain dicts created
with `{}`; `self._gmat_data[(node_p, node_p)] += g` therefore raises
`KeyError` on the first stamp of any key.  On a fresh circuit, adding a
1Ω resistor between two new names `"a"`, `"b"` (which resolve to the
distinct non-ground indices 1 > 0) raises instead of accumulating
`G[1,1] = G[0,0] = 1` and `G[1,0] = G[0,1] = -1`: both accumulators are
left empty while the registry has already been mutated. -/
theorem C1_add_res_key_error :
    (addRes initCircuit 1 "a" "b").2 = some PyErr.keyError ∧
    (addRes initCircuit 1 "a" "b").1.gmat_data = [] ∧
    (addRes initCircuit 1 "a" "b").1.cmat_data = [] ∧
    lookupName (addRes initCircuit 1 "a" "b").1.node_id "a" = some 0 ∧
    lookupName (addRes initCircuit 1 "a" "b").1.node_id "b" = some 1 := by
  decide

/-- C2 counterexample: on `degCircuit` (no conductances, a capacitive
divider from node 0 to ground) every numerator coefficient of the voltage
gain from `"in"` to `"out"` is zero, so with the default tolerance 0 the
trimming loop strips the entire numerator and raises `IndexError` instead
of terminating with a non-empty coefficient sequence. -/
theorem C2_trim_counterexample :
    getVoltageGainSystem degCircuit "in" "out" 0 = .error .indexError := by
  decide

/-- C2 (amended): whenever at least one numerator coefficient exceeds the
tolerance in magnitude, the trimming loop terminates without error,
removes exactly the leading coefficients with `|x| ≤ atol`, stops at the
first coefficient exceeding the tolerance, and returns the (non-empty)
remaining suffix unchanged — it never touches interior coefficients, and
it is applied to the numerator only, never to the denominator (see
`tfFinish`).  When every coefficient is `≤ atol` in magnitude the loop
instead empties the numerator and raises `IndexError`. -/
theorem C2_trim_drops_leading (atol : ℚ) (num : List ℚ) (h : ∃ x ∈ num, atol < |x|) :
    trimLeading atol num = some (num.dropWhile fun x => decide (|x| ≤ atol)) ∧
    num.dropWhile (fun x => decide (|x| ≤ atol)) ≠ [] := by
  induction num with
  | nil => simp at h
  | cons a as ih =>
    by_cases ha : |a| ≤ atol
    · have hs : ∃ x ∈ as, atol < |x| := by
        rcases h with ⟨x, hx, hgt⟩
        rcases List.mem_cons.mp hx with rfl | hmem
        · exact absurd ha (not_le.mpr hgt)
        · exact ⟨x, hmem, hgt⟩
      have := ih hs
      rw [trimLeading, if_pos ha, List.dropWhile_cons]
      simpa [ha] using this
    · rw [trimLeading, if_neg ha, List.dropWhile_cons]
      simp [ha]

/-- C2 (amended) witness: on the numerator `[0, 2, 3]` with tolerance 0 the
loop strips only the leading zero. -/
theorem C2_trim_drops_leading_witness :
    (∃ x ∈ [(0 : ℚ), 2, 3], (0 : ℚ) < |x|) ∧
    (trimLeading 0 [(0 : ℚ), 2, 3] =
        some (([(0 : ℚ), 2, 3]).dropWhile fun x => decide (|x| ≤ 0)) ∧
      ([(0 : ℚ), 2, 3]).dropWhile (fun x => decide (|x| ≤ 0)) ≠ []) :=
  ⟨⟨2, by decide, by decide⟩, C2_trim_drops_leading 0 [0, 2, 3] ⟨2, by decide, by decide⟩⟩

theorem getNodeId_gmat_data (st : LTI) (name : String) :
    (getNodeId st name).2.gmat_data = st.gmat_data := by
  unfold getNodeId
  cases lookupName st.node_id name <;> rfl

theorem getNodeId_cmat_data (st : LTI) (name : String) :
    (getNodeId st name).2.cmat_data = st.cmat_data := by
  unfold getNodeId
  cases lookupName st.node_id name <;> rfl

theorem lookupName_eq_none_iff (l : List (String × Int)) (name : String) :
    lookupName l name = none ↔ ∀ kv ∈ l, kv.1 ≠ name := by
  induction l with
  | nil => simp [lookupName]
  | cons kv rest ih =>
    by_cases hk : kv.1 = name
    · simp [lookupName, hk]
    · simp [lookupName, hk, ih]

theorem lookupName_append_new (l : List (String × Int)) (name : String) (v : Int)
    (h : lookupName l name = none) : lookupName (l ++ [(name, v)]) name = some v := by
  induction l with
  | nil => simp [lookupName]
  | cons kv rest ih =>
    by_cases hk : kv.1 = name
    · rw [lookupName, if_pos hk] at h; cases h
    · rw [lookupName, if_neg hk] at h
      rw [List.cons_append, lookupName, if_neg hk]
      exact ih h

theorem getNodeId_found (st : LTI) (name : String) (i : Int)
    (h : lookupName st.node_id name = some i) : getNodeId st name = (i, st) := by
  unfold getNodeId
  rw [h]

theorem getNodeId_idem (st : LTI) (name : String) :
    getNodeId (getNodeId st name).2 name = ((getNodeId st name).1, (getNodeId st name).2) := by
  rcases hE : lookupName st.node_id name with _ | i
  · unfold getNodeId
    rw [hE]
    dsimp
    rw [lookupName_append_new _ _ _ hE]
  · rw [getNodeId_found st name i hE]
    exact getNodeId_found st name i hE

theorem addRes_self_loop (st : LTI) (r : ℚ) (p n : String)
    (h : (getNodeId st p).1 = (getNodeId (getNodeId st p).2 n).1) :
    addRes st r p n = ((getNodeId (getNodeId st p).2 n).2, none) := by
  unfold addRes
  dsimp only
  rw [if_pos h]

theorem addCap_self_loop (st : LTI) (c : ℚ) (p n : String)
    (h : (getNodeId st p).1 = (getNodeId (getNodeId st p).2 n).1) :
    addCap st c p n = ((getNodeId (getNodeId st p).2 n).2, none) := by
  unfold addCap
  dsimp only
  rw [if_pos h]

theorem addGm_self_loop (st : LTI) (g : ℚ) (p n cp cn : String)
    (h : (getNodeId st p).1 = (getNodeId (getNodeId st p).2 n).1 ∨
      (getNodeId (getNodeId (getNodeId st p).2 n).2 cp).1 =
        (getNodeId (getNodeId (getNodeId (getNodeId st p).2 n).2 cp).2 cn).1) :
    addGm st g p n cp cn =
      ((getNodeId (getNodeId (getNodeId (getNodeId st p).2 n).2 cp).2 cn).2, none) := by
  unfold addGm
  dsimp only
  rw [if_pos h]

/-- C9: an element whose two terminals (or, for the VCCS, whose two control
terminals) resolve to the same node index is silently dropped: the
operation reports no error and leaves both stamp accumulators exactly as
they were (the node registry may still have been extended by the
resolution calls, see C10). -/
theorem C9_self_loop_noop (st : LTI) (r c g : ℚ) (p n cp cn : String) :
    ((getNodeId st p).1 = (getNodeId (getNodeId st p).2 n).1 →
      (addRes st r p n).2 = none ∧
      (addRes st r p n).1.gmat_data = st.gmat_data ∧
      (addRes st r p n).1.cmat_data = st.cmat_data ∧
      (addCap st c p n).2 = none ∧
      (addCap st c p n).1.gmat_data = st.gmat_data ∧
      (addCap st c p n).1.cmat_data = st.cmat_data) ∧
    ((getNodeId st p).1 = (getNodeId (getNodeId st p).2 n).1 ∨
        (getNodeId (getNodeId (getNodeId st p).2 n).2 cp).1 =
          (getNodeId (getNodeId (getNodeId (getNodeId st p).2 n).2 cp).2 cn).1 →
      (addGm st g p n cp cn).2 = none ∧
      (addGm st g p n cp cn).1.gmat_data = st.gmat_data ∧
      (addGm st g p n cp cn).1.cmat_data = st.cmat_data) := by
  constructor
  · intro h
    rw [addRes_self_loop st r p n h, addCap_self_loop st c p n h]
    refine ⟨rfl, ?_, ?_, rfl, ?_, ?_⟩ <;>
      simp [getNodeId_gmat_data, getNodeId_cmat_data]
  · intro h
    rw [addGm_self_loop st g p n cp cn h]
    refine ⟨rfl, ?_, ?_⟩ <;>
      simp [getNodeId_gmat_data, getNodeId_cmat_data]

/-- C9 witness: on a fresh circuit, a resistor and a capacitor between
`"a"` and itself, and a VCCS with both current terminals `"a"` and both
control terminals `"b"`, are all dropped without error. -/
theorem C9_self_loop_noop_witness :
    ((addRes initCircuit 1 "a" "a").2 = none ∧
      (addRes initCircuit 1 "a" "a").1.gmat_data = initCircuit.gmat_data ∧
      (addRes initCircuit 1 "a" "a").1.cmat_data = initCircuit.cmat_data ∧
      (addCap initCircuit 1 "a" "a").2 = none ∧
      (addCap initCircuit 1 "a" "a").1.gmat_data = initCircuit.gmat_data ∧
      (addCap initCircuit 1 "a" "a").1.cmat_data = initCircuit.cmat_data) ∧
    ((addGm initCircuit 1 "a" "a" "b" "b").2 = none ∧
      (addGm initCircuit 1 "a" "a" "b" "b").1.gmat_data = initCircuit.gmat_data ∧
      (addGm initCircuit 1 "a" "a" "b" "b").1.cmat_data = initCircuit.cmat_data) :=
  ⟨(C9_self_loop_noop initCircuit 1 1 1 "a" "a" "b" "b").1 (by decide),
   (C9_self_loop_noop initCircuit 1 1 1 "a" "a" "b" "b").2 (Or.inl (by decide))⟩

/-- C10: a degenerate (self-loop) element between a previously unseen name
and itself still mutates the node registry: the name is registered with
the next sequential index, the node count `n` grows by one (so every
subsequently materialized matrix shape, which is computed from `n`, is
enlarged), no error is raised, and both accumulators — in particular any
entries that could mention the new index — are left exactly unchanged. -/
theorem C10_self_loop_registers (st : LTI) (r c g : ℚ) (name : String)
    (hnew : lookupName st.node_id name = none) :
    ((addRes st r name name).2 = none ∧
      (addRes st r name name).1.n = st.n + 1 ∧
      lookupName (addRes st r name name).1.node_id name = some (st.n : Int) ∧
      (addRes st r name name).1.gmat_data = st.gmat_data ∧
      (addRes st r name name).1.cmat_data = st.cmat_data) ∧
    ((addCap st c name name).2 = none ∧
      (addCap st c name name).1.n = st.n + 1 ∧
      lookupName (addCap st c name name).1.node_id name = some (st.n : Int) ∧
      (addCap st c name name).1.gmat_data = st.gmat_data ∧
      (addCap st c name name).1.cmat_data = st.cmat_data) ∧
    ((addGm st g name name name name).2 = none ∧
      (addGm st g name name name name).1.n = st.n + 1 ∧
      lookupName (addGm st g name name name name).1.node_id name = some (st.n : Int) ∧
      (addGm st g name name name name).1.gmat_data = st.gmat_data ∧
      (addGm st g name name name name).1.cmat_data = st.cmat_data) := by
  have h1 : getNodeId st name =
      ((st.n : Int),
        ⟨st.n + 1, st.gmat_data, st.cmat_data, st.node_id ++ [(name, (st.n : Int))]⟩) := by
    unfold getNodeId
    rw [hnew]
  have hl1 : lookupName (st.node_id ++ [(name, (st.n : Int))]) name = some (st.n : Int) :=
    lookupName_append_new _ _ _ hnew
  have h2 : getNodeId
      (⟨st.n + 1, st.gmat_data, st.cmat_data, st.node_id ++ [(name, (st.n : Int))]⟩ : LTI)
      name =
      ((st.n : Int),
        ⟨st.n + 1, st.gmat_data, st.cmat_data, st.node_id ++ [(name, (st.n : Int))]⟩) :=
    getNodeId_found _ _ _ hl1
  have hcond : (getNodeId st name).1 = (getNodeId (getNodeId st name).2 name).1 := by
    rw [h1]
    dsimp
    rw [h2]
  have hstate : (getNodeId (getNodeId st name).2 name).2 =
      (⟨st.n + 1, st.gmat_data, st.cmat_data,
        st.node_id ++ [(name, (st.n : Int))]⟩ : LTI) := by
    rw [h1]
    dsimp
    rw [h2]
  have hstate4 : (getNodeId (getNodeId (getNodeId (getNodeId st name).2 name).2 name).2
      name).2 =
      (⟨st.n + 1, st.gmat_data, st.cmat_data,
        st.node_id ++ [(name, (st.n : Int))]⟩ : LTI) := by
    rw [h1]
    dsimp
    rw [h2]
    dsimp
    rw [h2]
    dsimp
    rw [h2]
  have hres := addRes_self_loop st r name name hcond
  have hcap := addCap_self_loop st c name name hcond
  have hgm := addGm_self_loop st g name name name name (Or.inl hcond)
  rw [hstate] at hres hcap
  rw [hstate4] at hgm
  exact ⟨⟨by rw [hres], by rw [hres], by rw [hres]; exact hl1, by rw [hres], by rw [hres]⟩,
         ⟨by rw [hcap], by rw [hcap], by rw [hcap]; exact hl1, by rw [hcap], by rw [hcap]⟩,
         ⟨by rw [hgm], by rw [hgm], by rw [hgm]; exact hl1, by rw [hgm], by rw [hgm]⟩⟩

/-- C10 witness: adding a self-loop resistor, capacitor and VCCS on the
unseen name `"x"` of a fresh circuit registers `"x"` at index 0, bumps the
node count, and leaves the accumulators empty. -/
theorem C10_self_loop_registers_witness :
    lookupName initCircuit.node_id "x" = none ∧
    (addRes initCircuit 1 "x" "x").2 = none ∧
    (addRes initCircuit 1 "x" "x").1.n = initCircuit.n + 1 ∧
    lookupName (addRes initCircuit 1 "x" "x").1.node_id "x" = some (initCircuit.n : Int) ∧
    (addGm initCircuit 1 "x" "x" "x" "x").1.gmat_data = initCircuit.gmat_data := by
  have h := C10_self_loop_registers initCircuit 1 1 1 "x" (by decide)
  exact ⟨by decide, h.1.1, h.1.2.1, h.1.2.2.1, h.2.2.2.2.2.1⟩

theorem registryOK_getNodeId (st : LTI) (name : String)
    (h : RegistryOK st.n st.node_id) :
    RegistryOK (getNodeId st name).2.n (getNodeId st name).2.node_id := by
  rcases hE : lookupName st.node_id name with _ | i
  · have hall : ∀ kv ∈ st.node_id, kv.1 ≠ name := (lookupName_eq_none_iff _ _).mp hE
    unfold getNodeId
    rw [hE]
    dsimp
    rcases h with ⟨tail, hids, hsnd, hnd, hres⟩
    refine ⟨tail ++ [(name, (st.n : Int))], ?_, ?_, ?_, ?_⟩
    · rw [hids, List.append_assoc]
    · rw [List.map_append, hsnd, List.range_succ, List.map_append]
      rfl
    · rw [List.map_append]
      refine (List.nodup_append).mpr ⟨hnd, by simp, ?_⟩
      intro a ha hb
      simp only [List.map_cons, List.map_nil, List.mem_singleton] at hb
      subst hb
      rcases List.mem_map.mp ha with ⟨kv, hkv, hfst⟩
      exact hall kv (by rw [hids]; exact List.mem_append_right _ hkv) hfst
    · intro kv hkv
      rcases List.mem_append.mp hkv with hkv | hkv
      · exact hres kv hkv
      · simp only [List.mem_singleton] at hkv
        subst hkv
        refine ⟨?_, ?_, ?_⟩ <;> intro hbad
        · exact hall ("gnd", -1) (by rw [hids]; simp) (by simpa using hbad.symm)
        · exact hall ("vss", -1) (by rw [hids]; simp) (by simpa using hbad.symm)
        · exact hall ("vdd", -1) (by rw [hids]; simp) (by simpa using hbad.symm)
  · rw [getNodeId_found st name i hE]
    exact h

theorem registryOK_addRes (st : LTI) (r : ℚ) (p n : String)
    (h : RegistryOK st.n st.node_id) :
    RegistryOK (addRes st r p n).1.n (addRes st r p n).1.node_id := by
  unfold addRes
  dsimp only
  split
  · exact registryOK_getNodeId _ _ (registryOK_getNodeId _ _ h)
  · exact registryOK_getNodeId _ _ (registryOK_getNodeId _ _ h)

theorem registryOK_addCap (st : LTI) (c : ℚ) (p n : String)
    (h : RegistryOK st.n st.node_id) :
    RegistryOK (addCap st c p n).1.n (addCap st c p n).1.node_id := by
  unfold addCap
  dsimp only
  split
  · exact registryOK_getNodeId _ _ (registryOK_getNodeId _ _ h)
  · exact registryOK_getNodeId _ _ (registryOK_getNodeId _ _ h)

theorem registryOK_addGm (st : LTI) (g : ℚ) (p n cp cn : String)
    (h : RegistryOK st.n st.node_id) :
    RegistryOK (addGm st g p n cp cn).1.n (addGm st g p n cp cn).1.node_id := by
  unfold addGm
  dsimp only
  split
  · exact registryOK_getNodeId _ _ (registryOK_getNodeId _ _
      (registryOK_getNodeId _ _ (registryOK_getNodeId _ _ h)))
  · exact registryOK_getNodeId _ _ (registryOK_getNodeId _ _
      (registryOK_getNodeId _ _ (registryOK_getNodeId _ _ h)))

/-- C8: in every reachable circuit state the registry keeps the three
reserved ground aliases at sentinel index `-1`, every other resolved name
holds a distinct non-negative index and the non-ground indices read
`0, 1, 2, ...` in first-use order (`RegistryOK`); resolving an
already-known name returns its stored index without mutating the state,
resolving any name twice returns the index assigned the first time, and
`_get_node_id` is total — no string is ever rejected. -/
theorem C8_registry_invariant (st : LTI) (h : Reachable st) :
    RegistryOK st.n st.node_id ∧
    lookupName st.node_id "gnd" = some (-1) ∧
    lookupName st.node_id "vss" = some (-1) ∧
    lookupName st.node_id "vdd" = some (-1) ∧
    (∀ name i, lookupName st.node_id name = some i → getNodeId st name = (i, st)) ∧
    (∀ name,
      getNodeId (getNodeId st name).2 name = ((getNodeId st name).1, (getNodeId st name).2)) := by
  have hOK : RegistryOK st.n st.node_id := by
    induction h with
    | base => exact ⟨[], rfl, rfl, by simp, by simp⟩
    | res hst ih => exact registryOK_addRes _ _ _ _ ih
    | cap hst ih => exact registryOK_addCap _ _ _ _ ih
    | gm hst ih => exact registryOK_addGm _ _ _ _ _ _ ih
  rcases hOK with ⟨tail, hids, hsnd, hnd, hres⟩
  refine ⟨⟨tail, hids, hsnd, hnd, hres⟩, ?_, ?_, ?_,
    fun name i hl => getNodeId_found st name i hl, fun name => getNodeId_idem st name⟩
  · rw [hids]; rfl
  · rw [hids]; rfl
  · rw [hids]; rfl

/-- C8 witness: the state after one `add_res` call on a fresh circuit
(which registers `"x"`) is reachable and satisfies the full registry
invariant. -/
theorem C8_registry_invariant_witness :
    RegistryOK (addRes initCircuit 1 "x" "gnd").1.n (addRes initCircuit 1 "x" "gnd").1.node_id ∧
    lookupName (addRes initCircuit 1 "x" "gnd").1.node_id "gnd" = some (-1) ∧
    lookupName (addRes initCircuit 1 "x" "gnd").1.node_id "vss" = some (-1) ∧
    lookupName (addRes initCircuit 1 "x" "gnd").1.node_id "vdd" = some (-1) ∧
    (∀ name i, lookupName (addRes initCircuit 1 "x" "gnd").1.node_id name = some i →
      getNodeId (addRes initCircuit 1 "x" "gnd").1 name = (i, (addRes initCircuit 1 "x" "gnd").1)) ∧
    (∀ name,
      getNodeId (getNodeId (addRes initCircuit 1 "x" "gnd").1 name).2 name =
        ((getNodeId (addRes initCircuit 1 "x" "gnd").1 name).1,
         (getNodeId (addRes initCircuit 1 "x" "gnd").1 name).2)) :=
  C8_registry_invariant _ (Reachable.res Reachable.base)

theorem dictToMat_error (table : List ((Int × Int) × ℚ)) (r c : ℕ) (ir ic : Int) (e : PyErr)
    (h : dictToMat table r c ir ic = .error e) : e = .cscError := by
  unfold dictToMat at h
  dsimp only at h
  split at h
  · cases h
  · injection h with h'
    exact h'.symm

theorem tfFinish_ok_error {m : ℕ} (ss : SS m) (atol : ℚ) (e : PyErr)
    (h : tfFinish (.ok ss) atol = .error e) : e = .indexError := by
  unfold tfFinish at h
  dsimp only at h
  split at h
  · injection h with h'
    exact h'.symm
  · cases h

theorem tfFinish_error {m : ℕ} (r : Except PyErr (SS m)) (atol : ℚ) (e : PyErr)
    (h : tfFinish r atol = .error e) : r = .error e ∨ e = .indexError := by
  rcases r with e' | ss
  · left
    unfold tfFinish at h
    dsimp only at h
    injection h with h'
    rw [h']
  · right
    exact (tfFinish_ok_error ss atol e h).symm ▸ rfl

theorem vgsBuild_error {n : ℕ} (gmat cmat : Matrix (Fin (n - 1)) (Fin n) ℚ)
    (node_in node_out : Int) (e : PyErr)
    (h : vgsBuild n gmat cmat node_in node_out = .error e) :
    e = .shapeError ∨ e = .singular ∨ e = .indexError := by
  unfold vgsBuild at h
  by_cases hin : 0 ≤ node_in ∧ node_in.toNat < n
  · rw [dif_pos hin] at h
    by_cases hdet : detQ (coreOf cmat node_in.toNat hin.2) = 0
    · rw [if_pos hdet] at h
      injection h with h'
      exact Or.inr (Or.inl h'.symm)
    · rw [if_neg hdet] at h
      dsimp only at h
      by_cases hout : 0 ≤ (if node_in < node_out then node_out - 1 else node_out) ∧
          (if node_in < node_out then node_out - 1 else node_out).toNat < n - 1
      · rw [dif_pos hout] at h
        cases h
      · rw [dif_neg hout] at h
        injection h with h'
        exact Or.inr (Or.inr h'.symm)
  · rw [dif_neg hin] at h
    injection h with h'
    exact Or.inl h'.symm

theorem impedance_core_error {m : ℕ} (gmat cmat : Matrix (Fin m) (Fin m) ℚ)
    (ni no : Int) (e : PyErr)
    (h : impedance_core gmat cmat ni no = .error e) : e = .singular ∨ e = .indexError := by
  unfold impedance_core at h
  split at h
  · injection h with h'
    exact Or.inl h'.symm
  · split at h
    · split at h
      · cases h
      · injection h with h'
        exact Or.inr h'.symm
    · injection h with h'
      exact Or.inr h'.symm

theorem voltage_gain_ss_eq (st : LTI) (in_name out_name : String) (node_in node_out : Int)
    (gmat cmat : Matrix (Fin (st.n - 1)) (Fin st.n) ℚ)
    (h1 : lookupName st.node_id in_name = some node_in)
    (h2 : lookupName st.node_id out_name = some node_out)
    (hne : node_in ≠ node_out)
    (hg : dictToMat st.gmat_data (st.n - 1) st.n node_in (-1) = .ok gmat)
    (hc : dictToMat st.cmat_data (st.n - 1) st.n node_in (-1) = .ok cmat) :
    voltage_gain_ss st in_name out_name = vgsBuild st.n gmat cmat node_in node_out := by
  unfold voltage_gain_ss
  rw [h1, h2]
  dsimp only
  rw [if_neg hne, hg, hc]

theorem voltage_gain_ss_sameNode (st : LTI) (in_name out_name : String) (node_in : Int)
    (h1 : lookupName st.node_id in_name = some node_in)
    (h2 : lookupName st.node_id out_name = some node_in) :
    voltage_gain_ss st in_name out_name = .error .sameNode := by
  unfold voltage_gain_ss
  rw [h1, h2]
  dsimp only
  rw [if_pos rfl]

theorem voltage_gain_ss_ne_sameNode (st : LTI) (in_name out_name : String)
    (node_in node_out : Int)
    (h1 : lookupName st.node_id in_name = some node_in)
    (h2 : lookupName st.node_id out_name = some node_out)
    (hne : node_in ≠ node_out) :
    voltage_gain_ss st in_name out_name ≠ .error .sameNode := by
  unfold voltage_gain_ss
  rw [h1, h2]
  dsimp only
  rw [if_neg hne]
  intro hcon
  rcases hA : dictToMat st.gmat_data (st.n - 1) st.n node_in (-1) with eA | gmat
  · rw [hA] at hcon
    dsimp only at hcon
    injection hcon with h'
    have := dictToMat_error _ _ _ _ _ _ hA
    rw [h'] at this
    cases this
  · rcases hB : dictToMat st.cmat_data (st.n - 1) st.n node_in (-1) with eB | cmat
    · rw [hA, hB] at hcon
      dsimp only at hcon
      injection hcon with h'
      have := dictToMat_error _ _ _ _ _ _ hB
      rw [h'] at this
      cases this
    · rw [hA, hB] at hcon
      dsimp only at hcon
      rcases vgsBuild_error _ _ _ _ _ hcon with h' | h' | h' <;> cases h'

/-- C6: with both names present in the registry, the voltage-gain query
raises the same-node `ValueError` exactly when the two names resolve to
the same index; with distinct indices that error can never be produced
(whatever else the query does downstream). -/
theorem C6_same_node_iff (st : LTI) (in_name out_name : String) (atol : ℚ)
    (node_in node_out : Int)
    (h1 : lookupName st.node_id in_name = some node_in)
    (h2 : lookupName st.node_id out_name = some node_out) :
    (getVoltageGainSystem st in_name out_name atol = .error .sameNode ↔ node_in = node_out) := by
  constructor
  · intro h
    by_contra hne
    rcases tfFinish_error _ _ _ h with hv | hfalse
    · exact voltage_gain_ss_ne_sameNode st in_name out_name node_in node_out h1 h2 hne hv
    · cases hfalse
  · intro h
    subst h
    unfold getVoltageGainSystem
    rw [voltage_gain_ss_sameNode st in_name out_name node_in h1 h2]
    rfl

/-- C6 witness: on the RC circuit, `"in"` and `"out"` resolve to the
distinct indices 1 and 0, and the query indeed does not raise the
same-node error. -/
theorem C6_same_node_iff_witness :
    lookupName rcCircuit.node_id "in" = some 1 ∧
    lookupName rcCircuit.node_id "out" = some 0 ∧
    (getVoltageGainSystem rcCircuit "in" "out" 0 = .error .sameNode ↔ (1 : Int) = 0) :=
  ⟨by decide, by decide,
   C6_same_node_iff rcCircuit "in" "out" 0 1 0 (by decide) (by decide)⟩

theorem vgsBuild_singular_iff {n : ℕ} (gmat cmat : Matrix (Fin (n - 1)) (Fin n) ℚ)
    (node_in node_out : Int) (atol : ℚ)
    (hin : 0 ≤ node_in ∧ node_in.toNat < n) :
    (tfFinish (vgsBuild n gmat cmat node_in node_out) atol = .error .singular ↔
      detQ (coreOf cmat node_in.toNat hin.2) = 0) := by
  unfold vgsBuild
  rw [dif_pos hin]
  by_cases hdet : detQ (coreOf cmat node_in.toNat hin.2) = 0
  · rw [if_pos hdet]
    simp [hdet, tfFinish]
  · rw [if_neg hdet]
    dsimp only
    constructor
    · intro hcon
      exfalso
      by_cases hout : 0 ≤ (if node_in < node_out then node_out - 1 else node_out) ∧
          (if node_in < node_out then node_out - 1 else node_out).toNat < n - 1
      · rw [dif_pos hout] at hcon
        have := tfFinish_ok_error _ _ _ hcon
        cases this
      · rw [dif_neg hout] at hcon
        unfold tfFinish at hcon
        dsimp only at hcon
        injection hcon with h'
        cases h'
    · intro h0
      exact absurd h0 hdet

theorem impCore_singular_iff {m : ℕ} (gmat cmat : Matrix (Fin m) (Fin m) ℚ)
    (ni no : Int) (atol : ℚ) :
    (tfFinish (impedance_core gmat cmat ni no) atol = .error .singular ↔ detQ cmat = 0) := by
  unfold impedance_core
  by_cases hdet : detQ cmat = 0
  · rw [if_pos hdet]
    simp [hdet, tfFinish]
  · rw [if_neg hdet]
    constructor
    · intro hcon
      exfalso
      by_cases hi : 0 ≤ ni ∧ ni.toNat < m
      · rw [dif_pos hi] at hcon
        by_cases ho : 0 ≤ no ∧ no.toNat < m
        · rw [dif_pos ho] at hcon
          dsimp only at hcon
          have := tfFinish_ok_error _ _ _ hcon
          cases this
        · rw [dif_neg ho] at hcon
          unfold tfFinish at hcon
          dsimp only at hcon
          injection hcon with h'
          cases h'
      · rw [dif_neg hi] at hcon
        unfold tfFinish at hcon
        dsimp only at hcon
        injection hcon with h'
        cases h'
    · intro h0
      exact absurd h0 hdet

/-- C5: the singular-matrix `ValueError` is raised by a query exactly when
the determinant of the capacitance (sub-)matrix handed to `factorized`
vanishes: for the voltage-gain query (with both names resolving to
distinct indices, non-ground in-range input, and both materializations
succeeding) the query result is that error iff `det c_core = 0`; for the
impedance-gain query the tail of the pipeline shared by both the shorted
and the non-shorted branch yields that error iff `det cmat = 0`.  In
particular a singular factorization can never be bypassed into a
silently approximated transfer function, and a successful factorization
never produces that error. -/
theorem C5_singular_iff (st : LTI) (in_name out_name : String) (atol : ℚ)
    (node_in node_out : Int) (gmat cmat : Matrix (Fin (st.n - 1)) (Fin st.n) ℚ)
    (h1 : lookupName st.node_id in_name = some node_in)
    (h2 : lookupName st.node_id out_name = some node_out)
    (hne : node_in ≠ node_out)
    (hin : 0 ≤ node_in ∧ node_in.toNat < st.n)
    (hg : dictToMat st.gmat_data (st.n - 1) st.n node_in (-1) = .ok gmat)
    (hc : dictToMat st.cmat_data (st.n - 1) st.n node_in (-1) = .ok cmat) :
    (getVoltageGainSystem st in_name out_name atol = .error .singular ↔
      (coreOf cmat node_in.toNat hin.2).det = 0) ∧
    (∀ (m : ℕ) (g c : Matrix (Fin m) (Fin m) ℚ) (ni no : Int) (atol' : ℚ),
      tfFinish (impedance_core g c ni no) atol' = .error .singular ↔ c.det = 0) := by
  constructor
  · unfold getVoltageGainSystem
    rw [voltage_gain_ss_eq st in_name out_name node_in node_out gmat cmat h1 h2 hne hg hc,
      ← detQ_eq_det]
    exact vgsBuild_singular_iff gmat cmat node_in node_out atol hin
  · intro m g c ni no atol'
    rw [← detQ_eq_det]
    exact impCore_singular_iff g c ni no atol'

/-- C5 witness: `singCircuit` has no capacitors, its reduced capacitance
matrix is the zero `1×1` matrix, and the voltage-gain query indeed reports
the singular-matrix error; the impedance part is instantiated at the
singular `1×1` zero capacitance matrix. -/
theorem C5_singular_iff_witness :
    lookupName singCircuit.node_id "in" = some 1 ∧
    lookupName singCircuit.node_id "out" = some 0 ∧
    dictToMat singCircuit.cmat_data (singCircuit.n - 1) singCircuit.n 1 (-1) =
      .ok (0 : Matrix (Fin 1) (Fin 2) ℚ) ∧
    (getVoltageGainSystem singCircuit "in" "out" 0 = .error .singular ↔
      (@coreOf 2 (0 : Matrix (Fin 1) (Fin 2) ℚ) (1 : Int).toNat (by decide)).det = 0) ∧
    (tfFinish (impedance_core (!![1] : Matrix (Fin 1) (Fin 1) ℚ) (!![0] : Matrix (Fin 1) (Fin 1) ℚ) 0 0) 0 =
        .error .singular ↔ (!![0] : Matrix (Fin 1) (Fin 1) ℚ).det = 0) := by
  have h := C5_singular_iff singCircuit "in" "out" 0 1 0
    (0 : Matrix (Fin 1) (Fin 2) ℚ) (0 : Matrix (Fin 1) (Fin 2) ℚ)
    (by decide) (by decide) (by decide) (by decide) (by decide) (by decide)
  exact ⟨by decide, by decide, by decide, h.1, h.2 1 !![1] !![0] 0 0 0⟩

theorem vgsBuild_ok {n : ℕ} (gmat cmat : Matrix (Fin (n - 1)) (Fin n) ℚ)
    (node_in node_out : Int) (ss : SS (n - 1))
    (hin : 0 ≤ node_in ∧ node_in.toNat < n)
    (hss : vgsBuild n gmat cmat node_in node_out = .ok ss) :
    ss.A = (coreOf cmat node_in.toNat hin.2)⁻¹ * -(coreOf gmat node_in.toNat hin.2) ∧
    ss.B = (coreOf cmat node_in.toNat hin.2)⁻¹ *
      -(colOf gmat ⟨node_in.toNat, hin.2⟩ -
        coreOf gmat node_in.toNat hin.2 *
          ((coreOf cmat node_in.toNat hin.2)⁻¹ * colOf cmat ⟨node_in.toNat, hin.2⟩)) ∧
    (∀ o : Fin (n - 1),
      (o.val : Int) = (if node_in < node_out then node_out - 1 else node_out) →
      ss.D = Matrix.of (fun _ _ =>
        -(((coreOf cmat node_in.toNat hin.2)⁻¹ * colOf cmat ⟨node_in.toNat, hin.2⟩) o 0)) ∧
      ss.C = rowUnit o) := by
  unfold vgsBuild at hss
  rw [dif_pos hin] at hss
  by_cases hdet : detQ (coreOf cmat node_in.toNat hin.2) = 0
  · rw [if_pos hdet] at hss
    cases hss
  · rw [if_neg hdet] at hss
    dsimp only at hss
    by_cases hout : 0 ≤ (if node_in < node_out then node_out - 1 else node_out) ∧
        (if node_in < node_out then node_out - 1 else node_out).toNat < n - 1
    · rw [dif_pos hout] at hss
      injection hss with hss
      subst hss
      refine ⟨?_, ?_, ?_⟩
      · dsimp only
        rw [solveMat_eq_inv_mul]
      · dsimp only
        simp only [solveMat_eq_inv_mul]
      · intro o ho
        have hofin : o = ⟨(if node_in < node_out then node_out - 1 else node_out).toNat,
            hout.2⟩ := by
          apply Fin.ext
          dsimp only
          omega
        subst hofin
        constructor
        · dsimp only
          simp only [solveMat_eq_inv_mul]
        · rfl
    · rw [dif_neg hout] at hss
      cases hss

/-- C3: whenever the voltage-gain query succeeds in building a state-space
model (names present, distinct, the input index non-ground and in range,
both materializations delivered, and the core capacitance matrix
factorizable), the model satisfies `A = c_core⁻¹ · (−g_core)`,
`B = c_core⁻¹ · (−(g_in − g_core·weight))` with `weight = c_core⁻¹ · c_in`,
`D = −weight[output_row]` where the output row index is the resolved
output index decremented by one exactly when it exceeds the removed input
index, and `C_out` is the unit row selecting that remapped index. -/
theorem C3_voltage_ss (st : LTI) (in_name out_name : String) (node_in node_out : Int)
    (gmat cmat : Matrix (Fin (st.n - 1)) (Fin st.n) ℚ) (ss : SS (st.n - 1))
    (h1 : lookupName st.node_id in_name = some node_in)
    (h2 : lookupName st.node_id out_name = some node_out)
    (hne : node_in ≠ node_out)
    (hin : 0 ≤ node_in ∧ node_in.toNat < st.n)
    (hg : dictToMat st.gmat_data (st.n - 1) st.n node_in (-1) = .ok gmat)
    (hc : dictToMat st.cmat_data (st.n - 1) st.n node_in (-1) = .ok cmat)
    (hss : voltage_gain_ss st in_name out_name = .ok ss) :
    ss.A = (coreOf cmat node_in.toNat hin.2)⁻¹ * -(coreOf gmat node_in.toNat hin.2) ∧
    ss.B = (coreOf cmat node_in.toNat hin.2)⁻¹ *
      -(colOf gmat ⟨node_in.toNat, hin.2⟩ -
        coreOf gmat node_in.toNat hin.2 *
          ((coreOf cmat node_in.toNat hin.2)⁻¹ * colOf cmat ⟨node_in.toNat, hin.2⟩)) ∧
    (∀ o : Fin (st.n - 1),
      (o.val : Int) = (if node_in < node_out then node_out - 1 else node_out) →
      ss.D = Matrix.of (fun _ _ =>
        -(((coreOf cmat node_in.toNat hin.2)⁻¹ * colOf cmat ⟨node_in.toNat, hin.2⟩) o 0)) ∧
      ss.C = rowUnit o) := by
  rw [voltage_gain_ss_eq st in_name out_name node_in node_out gmat cmat h1 h2 hne hg hc] at hss
  exact vgsBuild_ok gmat cmat node_in node_out ss hin hss

set_option maxHeartbeats 2000000 in
/-- C3 witness: on the RC low-pass circuit the query assembles
`A = [[-1]]`, `B = [[1]]`, `C = [[1]]`, `D = [[0]]`, and these satisfy the
claimed formulas with `c_core = [[1]]`, `g_core = [[1]]`,
`c_in = [[0]]`, `g_in = [[-1]]`, output row 0. -/
theorem C3_voltage_ss_witness :
    voltage_gain_ss rcCircuit "in" "out" = .ok rcVoltageSS ∧
    rcVoltageSS.A = (@coreOf 2 rcCmat (1 : Int).toNat (by decide))⁻¹ *
      -(@coreOf 2 rcGmat (1 : Int).toNat (by decide)) ∧
    rcVoltageSS.B = (@coreOf 2 rcCmat (1 : Int).toNat (by decide))⁻¹ *
      -(colOf rcGmat ⟨(1 : Int).toNat, by decide⟩ -
        @coreOf 2 rcGmat (1 : Int).toNat (by decide) *
          ((@coreOf 2 rcCmat (1 : Int).toNat (by decide))⁻¹ *
            colOf rcCmat ⟨(1 : Int).toNat, by decide⟩)) ∧
    (rcVoltageSS.D = Matrix.of (fun _ _ =>
        -(((@coreOf 2 rcCmat (1 : Int).toNat (by decide))⁻¹ *
            colOf rcCmat ⟨(1 : Int).toNat, by decide⟩) 0 0)) ∧
      rcVoltageSS.C = rowUnit 0) := by
  have h := C3_voltage_ss rcCircuit "in" "out" 1 0 rcGmat rcCmat rcVoltageSS
    (by decide) (by decide) (by decide) (by decide) (by decide) (by decide) (by decide)
  exact ⟨by decide, h.1, h.2.1, h.2.2 ⟨0, by decide⟩ (by decide)⟩

theorem tfFinish_impCore_ne {m : ℕ} (g c : Matrix (Fin m) (Fin m) ℚ) (ni no : Int)
    (atol : ℚ) (e : PyErr) (hs : e ≠ .singular) (hi : e ≠ .indexError) :
    tfFinish (impedance_core g c ni no) atol ≠ .error e := by
  intro hcon
  rcases tfFinish_error _ _ _ hcon with hv | hv
  · rcases impedance_core_error _ _ _ _ _ hv with h' | h'
    · exact hs h'
    · exact hi h'
  · exact hi hv

/-- C7: with input and output names registered, the impedance-gain query
with an empty short name can never raise the shorted-port `ValueError`;
with a non-empty registered short name it raises that error exactly when
the short node's index coincides with the input index or the output index.
The input and output may themselves resolve to the same index (the
driving-point case) without triggering this check. -/
theorem C7_shorted_port_iff (st : LTI) (in_name out_name short_name : String) (atol : ℚ)
    (node_in node_out : Int)
    (h1 : lookupName st.node_id in_name = some node_in)
    (h2 : lookupName st.node_id out_name = some node_out) :
    (getImpedanceGainSystem st in_name out_name "" atol ≠ .error .shortedPort) ∧
    (∀ node_short : Int, short_name ≠ "" →
      lookupName st.node_id short_name = some node_short →
      (getImpedanceGainSystem st in_name out_name short_name atol = .error .shortedPort ↔
        (node_in = node_short ∨ node_out = node_short))) := by
  constructor
  · unfold getImpedanceGainSystem
    rw [h1, h2]
    dsimp only
    rw [if_pos rfl]
    intro hcon
    rcases hA : dictToMat st.gmat_data st.n st.n (-1) (-1) with eA | gmat
    · rw [hA] at hcon
      dsimp only at hcon
      injection hcon with h'
      have := dictToMat_error _ _ _ _ _ _ hA
      rw [h'] at this
      cases this
    · rcases hB : dictToMat st.cmat_data st.n st.n (-1) (-1) with eB | cmat
      · rw [hA, hB] at hcon
        dsimp only at hcon
        injection hcon with h'
        have := dictToMat_error _ _ _ _ _ _ hB
        rw [h'] at this
        cases this
      · rw [hA, hB] at hcon
        dsimp only at hcon
        exact tfFinish_impCore_ne _ _ _ _ _ _ (by intro h; cases h) (by intro h; cases h) hcon
  · intro node_short hsn hs
    unfold getImpedanceGainSystem
    rw [h1, h2]
    dsimp only
    rw [if_neg hsn, hs]
    dsimp only
    by_cases hcoin : node_in = node_short ∨ node_out = node_short
    · rw [if_pos hcoin]
      simp [hcoin]
    · rw [if_neg hcoin]
      constructor
      · intro hcon
        exfalso
        rcases hA : dictToMat st.gmat_data (st.n - 1) (st.n - 1) node_short node_short
          with eA | gmat
        · rw [hA] at hcon
          dsimp only at hcon
          injection hcon with h'
          have := dictToMat_error _ _ _ _ _ _ hA
          rw [h'] at this
          cases this
        · rcases hB : dictToMat st.cmat_data (st.n - 1) (st.n - 1) node_short node_short
            with eB | cmat
          · rw [hA, hB] at hcon
            dsimp only at hcon
            injection hcon with h'
            have := dictToMat_error _ _ _ _ _ _ hB
            rw [h'] at this
            cases this
          · rw [hA, hB] at hcon
            dsimp only at hcon
            exact tfFinish_impCore_ne _ _ _ _ _ _ (by intro h; cases h) (by intro h; cases h)
              hcon
      · intro h0
        exact absurd h0 hcoin

/-- C7 witness: on `z3Circuit` the driving-point query at `"a"` with no
short raises no shorted-port error, and with short node `"c"` (index 2,
distinct from input = output = 0) the error is raised iff `0 = 2 ∨ 0 = 2`,
i.e. it is not raised. -/
theorem C7_shorted_port_iff_witness :
    lookupName z3Circuit.node_id "a" = some 0 ∧
    lookupName z3Circuit.node_id "c" = some 2 ∧
    (getImpedanceGainSystem z3Circuit "a" "a" "" 0 ≠ .error .shortedPort) ∧
    (getImpedanceGainSystem z3Circuit "a" "a" "c" 0 = .error .shortedPort ↔
      ((0 : Int) = 2 ∨ (0 : Int) = 2)) :=
  ⟨by decide, by decide,
   (C7_shorted_port_iff z3Circuit "a" "a" "c" 0 0 0 (by decide) (by decide)).1,
   (C7_shorted_port_iff z3Circuit "a" "a" "c" 0 0 0 (by decide) (by decide)).2 2
     (by decide) (by decide)⟩

/-- C4 (amended): whenever the shared impedance state-space assembly
succeeds (capacitance matrix factorizable, remapped input and output
indices non-ground and in range), no row or column of the excitation is
deleted — the model keeps the full dimension of the (possibly
short-reduced) matrices — and it satisfies `A = cmat⁻¹ · (−G)`, `D = 0`,
`C_out` the unit row at the remapped output index, and
`B = cmat⁻¹ · e_in`, the *positive* unit column at the remapped input
index solved through `cmat⁻¹`: the code stores `-1` in `bmat` and then
solves `-bmat`, so the two negations cancel. -/
theorem C4_impedance_ss {m : ℕ} (gmat cmat : Matrix (Fin m) (Fin m) ℚ) (ni no : Int)
    (ss : SS m) (hss : impedance_core gmat cmat ni no = .ok ss) :
    ss.A = cmat⁻¹ * -gmat ∧
    ss.D = 0 ∧
    (∀ i : Fin m, (i.val : Int) = ni → ss.B = cmat⁻¹ * colUnit i) ∧
    (∀ o : Fin m, (o.val : Int) = no → ss.C = rowUnit o) := by
  unfold impedance_core at hss
  by_cases hdet : detQ cmat = 0
  · rw [if_pos hdet] at hss
    cases hss
  · rw [if_neg hdet] at hss
    by_cases hi : 0 ≤ ni ∧ ni.toNat < m
    · rw [dif_pos hi] at hss
      by_cases ho : 0 ≤ no ∧ no.toNat < m
      · rw [dif_pos ho] at hss
        dsimp only at hss
        injection hss with hss
        subst hss
        refine ⟨?_, rfl, ?_, ?_⟩
        · dsimp only
          rw [solveMat_eq_inv_mul]
        · intro i hiv
          have hif : i = ⟨ni.toNat, hi.2⟩ := by
            apply Fin.ext
            dsimp only
            omega
          subst hif
          have hb : -(Matrix.of fun row (_ : Fin 1) =>
              if row = (⟨ni.toNat, hi.2⟩ : Fin m) then (-1 : ℚ) else 0) =
              colUnit (⟨ni.toNat, hi.2⟩ : Fin m) := by
            ext r c
            by_cases hr : r = (⟨ni.toNat, hi.2⟩ : Fin m) <;>
              simp [colUnit, Matrix.neg_apply, hr]
          dsimp only
          rw [hb, solveMat_eq_inv_mul]
        · intro o hov
          have hof : o = ⟨no.toNat, ho.2⟩ := by
            apply Fin.ext
            dsimp only
            omega
          subst hof
          rfl
      · rw [dif_neg ho] at hss
        cases hss
    · rw [dif_neg hi] at hss
      cases hss

/-- C4 counterexample: with `G = [[2]]`, `C = I₁` and input = output =
node 0, the assembled `B` is `[[1]] = C⁻¹·e₀`, not the claimed negative
unit column solved through `C⁻¹`, which would be `C⁻¹·(−e₀) = [[-1]]`. -/
theorem C4_b_sign_counterexample :
    impedance_core (!![2] : Matrix (Fin 1) (Fin 1) ℚ) (1 : Matrix (Fin 1) (Fin 1) ℚ) 0 0 =
      .ok impSS ∧
    impSS.B ≠ (1 : Matrix (Fin 1) (Fin 1) ℚ)⁻¹ * -(colUnit (0 : Fin 1)) := by
  constructor
  · decide
  · rw [inv_one, Matrix.one_mul]
    intro hcon
    have h00 := congrFun (congrFun hcon 0) 0
    simp [impSS, colUnit, Matrix.neg_apply] at h00
    norm_num at h00

/-- C4 (amended) witness: the concrete model for `G = [[2]]`, `C = I₁`. -/
theorem C4_impedance_ss_witness :
    impedance_core (!![2] : Matrix (Fin 1) (Fin 1) ℚ) (1 : Matrix (Fin 1) (Fin 1) ℚ) 0 0 =
      .ok impSS ∧
    impSS.A = (1 : Matrix (Fin 1) (Fin 1) ℚ)⁻¹ * -(!![2] : Matrix (Fin 1) (Fin 1) ℚ) ∧
    impSS.D = 0 ∧
    impSS.B = (1 : Matrix (Fin 1) (Fin 1) ℚ)⁻¹ * colUnit ⟨0, by decide⟩ ∧
    impSS.C = rowUnit ⟨0, by decide⟩ := by
  have h := C4_impedance_ss !![2] 1 0 0 impSS (by decide)
  exact ⟨by decide, h.1, h.2.1, h.2.2.1 ⟨0, by decide⟩ (by decide),
    h.2.2.2 ⟨0, by decide⟩ (by decide)⟩
